import Mathlib

/-!
Verification of the documentexplore pipeline against its specification.

The Python sources are shallowly embedded as Lean definitions:
strings are modelled as lists of characters or as lists of tokens,
JSON records as structures with `Option` fields for keys that may be
absent, machine floats for cohesion scores as an abstract oracle, and
fallible code as `Except`/`Option`.  Each definition carries a comment
naming the source function it translates.
-/

namespace DocExplore

/-! ### Chunker (backend/text_chunking.py) -/

/--
Translation of `chunk_text` (text_chunking.py lines 3-11): repeatedly
slice `text[start:start+max_chars]` until the text is exhausted.  The
Python loop advances `start` by `max_chars` each step; we realise the
loop with a fuel argument equal to the text length, which bounds the
iteration count whenever `max_chars > 0`.  (For `max_chars = 0` the
Python loop never terminates; the embedding is only meaningful for a
positive chunk size, which is all the specification speaks about.)
-/
def chunkTextAux : Nat → List Char → Nat → List (List Char)
  | 0, _, _ => []
  | fuel + 1, text, m =>
      if m = 0 ∨ text = [] then []
      else text.take m :: chunkTextAux fuel (text.drop m) m

/-- Entry point of the `chunk_text` embedding. -/
def chunkText (text : List Char) (maxChars : Nat) : List (List Char) :=
  chunkTextAux text.length text maxChars

/--
Translation of Python `str.strip` as applied in `chunk_all_texts`
(text_chunking.py line 27): remove leading and trailing whitespace.
-/
def stripChars (l : List Char) : List Char :=
  ((l.dropWhile Char.isWhitespace).reverse.dropWhile Char.isWhitespace).reverse

/--
The chunks of one document segment as `chunk_all_texts` persists them
(text_chunking.py lines 20-27): each chunk produced by `chunk_text` is
stripped before being written, followed by the end-of-chunk delimiter.
Discarding the delimiters leaves exactly this list of stripped chunks.
-/
def savedChunks (doc : List Char) (maxChars : Nat) : List (List Char) :=
  (chunkText doc maxChars).map stripChars

/-- Arithmetic helper: the chunk-count recurrence steps down cleanly. -/
lemma sub_add_div_eq (L m : Nat) (hL : 0 < L) (hm : 0 < m) :
    (L - m + m - 1) / m = (L - 1) / m := by
  rcases le_or_lt m L with h | h
  · have : L - m + m = L := Nat.sub_add_cancel h
    rw [this]
  · have h1 : L - m = 0 := Nat.sub_eq_zero_of_le h.le
    rw [h1, Nat.zero_add]
    rw [Nat.div_eq_of_lt (by omega), Nat.div_eq_of_lt (by omega)]

/-- Core induction for the chunker: count, size bound and concatenation. -/
lemma chunkTextAux_spec (m : Nat) (hm : 0 < m) :
    ∀ fuel (t : List Char), t.length ≤ fuel →
      (chunkTextAux fuel t m).length = (t.length + m - 1) / m ∧
      (∀ c ∈ chunkTextAux fuel t m, c.length ≤ m) ∧
      (chunkTextAux fuel t m).flatten = t
  | 0, t, ht => by
      have h0 : t = [] := List.eq_nil_of_length_eq_zero (Nat.le_zero.mp ht)
      subst h0
      refine ⟨?_, by simp [chunkTextAux], by simp [chunkTextAux]⟩
      simp [chunkTextAux, Nat.div_eq_of_lt (by omega : m - 1 < m)]
  | fuel + 1, t, ht => by
      by_cases h0 : t = []
      · subst h0
        refine ⟨?_, by simp [chunkTextAux], by simp [chunkTextAux]⟩
        simp [chunkTextAux, Nat.div_eq_of_lt (by omega : m - 1 < m)]
      · have hcond : ¬ (m = 0 ∨ t = []) := by
          push_neg
          exact ⟨hm.ne', h0⟩
        have hL : 0 < t.length := List.length_pos.mpr h0
        have hdrop : (t.drop m).length ≤ fuel := by
          rw [List.length_drop]
          omega
        obtain ⟨ihlen, ihsize, ihjoin⟩ := chunkTextAux_spec m hm fuel (t.drop m) hdrop
        rw [List.length_drop] at ihlen
        refine ⟨?_, ?_, ?_⟩
        · show (chunkTextAux (fuel + 1) t m).length = _
          rw [chunkTextAux, if_neg hcond]
          rw [List.length_cons, ihlen, sub_add_div_eq t.length m hL hm]
          have hrw : t.length + m - 1 = m + (t.length - 1) := by omega
          rw [hrw, Nat.add_div_left _ hm, Nat.add_comm]
        · intro c hc
          rw [chunkTextAux, if_neg hcond] at hc
          rcases List.mem_cons.mp hc with h | h
          · subst h
            simp
          · exact ihsize c h
        · rw [chunkTextAux, if_neg hcond, List.flatten_cons, ihjoin,
            List.take_append_drop]

/--
C1 (amended): for every document text and every positive chunk size,
`chunk_text` produces exactly ceil(len(text)/max_chars) chunks, each at
most max_chars characters long, and concatenating those in-memory chunks
in order reconstructs the text exactly.  (The persisted form written by
`chunk_all_texts` additionally strips each chunk, so reconstruction from
the saved chunks holds only up to per-chunk whitespace trimming; see the
counterexample.)
-/
theorem chunk_text_spec (text : List Char) (m : Nat) (hm : 0 < m) :
    (chunkText text m).length = (text.length + m - 1) / m ∧
    (∀ c ∈ chunkText text m, c.length ≤ m) ∧
    (chunkText text m).flatten = text :=
  chunkTextAux_spec m hm text.length text le_rfl

/--
Witness for C1 at the specification's own scenario scaled down: a
9-character text with chunk size 4 yields ceil(9/4) = 3 chunks whose
concatenation is the original text.
-/
theorem chunk_text_spec_witness :
    (0 : Nat) < 4 ∧
    (chunkText "abcdefghi".data 4).length = 3 ∧
    (chunkText "abcdefghi".data 4).flatten = "abcdefghi".data :=
  ⟨by decide, (chunk_text_spec "abcdefghi".data 4 (by decide)).1,
    (chunk_text_spec "abcdefghi".data 4 (by decide)).2.2⟩

/--
C1 counterexample: `chunk_all_texts` strips each chunk before writing
it (text_chunking.py line 27), so concatenating the persisted chunks
(discarding delimiters) does not reconstruct the original text when a
chunk boundary falls next to whitespace: "a b" with chunk size 2 is
persisted as the chunks "a" and "b", which concatenate to "ab".
-/
theorem chunk_saved_concat_counterexample :
    (savedChunks "a b".data 2).flatten ≠ "a b".data := by decide

/-! ### Data records of the pipeline handoff files

One record of `embeddings.json` / `clustered_embeddings.json`: an
integer id, the chunk text (modelled at token granularity: the list of
whitespace-separated tokens of the lower-cased text), the embedding
vector when the key is present, and the cluster label once assigned.
-/

structure Record where
  id : Nat
  text : List String
  embedding : Option (List ℚ)
  cluster : Option Nat
deriving DecidableEq

/--
The guard of `perform_clustering` (clustering.py line 70): a record
contributes a vector when the "embedding" key is present and its value
is truthy, i.e. a non-empty list.
-/
def hasEmb (r : Record) : Bool :=
  match r.embedding with
  | some v => !v.isEmpty
  | none => false

/--
Translation of the vector extraction in `perform_clustering`
(clustering.py line 70).
-/
def vectorsOf (data : List Record) : List (List ℚ) :=
  data.filterMap fun r =>
    match r.embedding with
    | some v => if v.isEmpty then none else some v
    | none => none

/-! ### Cluster selector (backend/clustering.py, determine_optimal_clusters)

Python `range(a, b, s)`: the integers a, a+s, a+2s, ... strictly below
b.  The silhouette computation (sklearn KMeans + silhouette_score on the
standardised matrix) is an external numeric routine; it is abstracted as
an oracle `score : Nat → Option ℚ` giving for each candidate k the
silhouette value, or `none` when the computation raises (the source
catches the exception and merely skips that candidate).
-/

def pyRange (a b s : Nat) : List Nat :=
  List.range' a ((b - a + s - 1) / s) s

/-- Lower bound of `min_clusters` (clustering.py line 21). -/
def minKOf (n cMin : Nat) : Nat := min cMin (max 2 (n / 20))

/-- Upper bound of `max_clusters` (clustering.py line 22). -/
def maxKOf (n cMin cMax : Nat) : Nat :=
  min cMax (max (minKOf n cMin + 2) (n / 5))

/--
The candidate list `cluster_range` (clustering.py lines 25-29): when
`max_clusters > 30` the range is stepped by `max(1, (max-min) div 10)`,
otherwise it is the plain range; in both cases the Python range
excludes its upper bound.
-/
def candidateList (n cMin cMax : Nat) : List Nat :=
  if 30 < maxKOf n cMin cMax then
    pyRange (minKOf n cMin) (maxKOf n cMin cMax)
      (max 1 ((maxKOf n cMin cMax - minKOf n cMin) / 10))
  else pyRange (minKOf n cMin) (maxKOf n cMin cMax) 1

/--
The scored candidates (clustering.py lines 41-56): a candidate k is
skipped when `n <= k` (not enough samples) or when the silhouette
computation raises (oracle returns none).
-/
def scoredCandidates (score : Nat → Option ℚ) (n cMin cMax : Nat) :
    List (Nat × ℚ) :=
  (candidateList n cMin cMax).filterMap fun k =>
    if n ≤ k then none else (score k).map fun s => (k, s)

/--
Python `max(list, key=...)` over (k, score) pairs: the first pair whose
score is maximal, `none` on the empty list (clustering.py line 62).
-/
def pickBest : List (Nat × ℚ) → Option (Nat × ℚ) :=
  List.foldl
    (fun best p =>
      match best with
      | none => some p
      | some b => if b.2 < p.2 then some p else some b)
    none

/--
Translation of `determine_optimal_clusters` (clustering.py lines 14-66)
with the silhouette oracle abstracted; `n` is `X.shape[0]`.  Default
configuration: `min_clusters=3`, `max_clusters=50`.
-/
def determineOptimalClusters (score : Nat → Option ℚ) (n cMin cMax : Nat) :
    Nat :=
  if (candidateList n cMin cMax).length < 2 then minKOf n cMin
  else
    match pickBest (scoredCandidates score n cMin cMax) with
    | none => minKOf n cMin
    | some kb => kb.1

/--
The cluster count requested from `perform_clustering` (clustering.py
lines 82-83): when none is supplied, or a non-positive one, the dynamic
selector decides with its default configuration `(3, 50)`.
-/
def requestedK (score : Nat → Option ℚ) (n : Nat) (numClusters : Option Int) :
    Nat :=
  match numClusters with
  | none => determineOptimalClusters score n 3 50
  | some k => if k ≤ 0 then determineOptimalClusters score n 3 50 else k.toNat

/--
The capacity adjustment of `perform_clustering` (clustering.py lines
86-90): when fewer samples than requested clusters are available, the
count is reduced to `max 2 (n div 3)` (with a logged warning).
-/
def adjustedK (n k0 : Nat) : Nat := if n < k0 then max 2 (n / 3) else k0

/--
Translation of `perform_clustering` (clustering.py lines 68-94) up to
the final KMeans invocation, which is external: the result `.ok (n, k)`
records that `KMeans(n_clusters=k)` is invoked on the `n` extracted
vectors (sklearn succeeds exactly when `1 ≤ k ≤ n`); `.error` is the
ValueError raised when no embeddings are present.
-/
def performClustering (score : Nat → Option ℚ) (data : List Record)
    (numClusters : Option Int) : Except String (Nat × Nat) :=
  if (vectorsOf data).isEmpty then
    .error "No embeddings found. Please check that the embedding generation step produced output."
  else
    .ok ((vectorsOf data).length,
      adjustedK (vectorsOf data).length
        (requestedK score (vectorsOf data).length numClusters))

/-! ### Range lemmas -/

lemma mem_pyRange_lower {a b s x : Nat} (hx : x ∈ pyRange a b s) : a ≤ x := by
  rw [pyRange, List.mem_range'] at hx
  obtain ⟨i, _, rfl⟩ := hx
  exact Nat.le_add_right a (s * i)

lemma mem_pyRange_upper {a b s x : Nat} (hs : 0 < s) (hx : x ∈ pyRange a b s) :
    x < b := by
  rw [pyRange, List.mem_range'] at hx
  obtain ⟨i, hi, rfl⟩ := hx
  have hq : ((b - a + s - 1) / s) * s ≤ b - a + s - 1 := Nat.div_mul_le_self _ _
  have h1 : (i + 1) * s ≤ b - a + s - 1 :=
    le_trans (Nat.mul_le_mul_right s hi) hq
  rw [Nat.succ_mul] at h1
  have hba : 1 ≤ b - a := by
    rcases Nat.eq_zero_or_pos (b - a) with h0 | h
    · exfalso
      rw [h0, Nat.zero_add, Nat.div_eq_of_lt (by omega : s - 1 < s)] at hi
      omega
    · exact h
  have h2 : i * s ≤ b - a - 1 := by omega
  have h3 : s * i ≤ b - a - 1 := by rw [Nat.mul_comm]; exact h2
  omega

lemma self_mem_pyRange {a b s : Nat} (hs : 0 < s) (hab : a < b) :
    a ∈ pyRange a b s := by
  rw [pyRange, List.mem_range']
  refine ⟨0, ?_, by omega⟩
  have h1 : s ≤ b - a + s - 1 := by omega
  exact Nat.div_pos h1 hs

/--
Shared fall-back lemma: when every candidate k is skipped because
`n ≤ k`, no silhouette score is recorded and the selector returns
`min_k`, whatever the oracle says.
-/
lemma determine_eq_minK_of_skip (score : Nat → Option ℚ) (n cMin cMax : Nat)
    (h : ∀ k ∈ candidateList n cMin cMax, n ≤ k) :
    determineOptimalClusters score n cMin cMax = minKOf n cMin := by
  rw [determineOptimalClusters]
  by_cases hlen : (candidateList n cMin cMax).length < 2
  · rw [if_pos hlen]
  · rw [if_neg hlen]
    have hempty : scoredCandidates score n cMin cMax = [] := by
      rw [scoredCandidates, List.filterMap_eq_nil_iff]
      intro k hk
      rw [if_pos (h k hk)]
    rw [hempty]
    rfl

/-- Every candidate is at least `min_k`, in both branches of the range. -/
lemma mem_candidateList_lower {n cMin cMax k : Nat}
    (hk : k ∈ candidateList n cMin cMax) : minKOf n cMin ≤ k := by
  rw [candidateList] at hk
  split at hk
  · exact mem_pyRange_lower hk
  · exact mem_pyRange_lower hk

/--
C6 (amended): the selector derives `min_k = min(configured_min,
max(2, n div 20))` and `max_k = min(configured_max, max(min_k + 2,
n div 5))`; the candidate list is the Python range from `min_k` to
`max_k`, which always excludes `max_k`; the subsampling (step
`max(1, (max_k - min_k) div 10)`) is triggered when `max_k > 30`, not
when the candidate count exceeds ten, and it preserves `min_k` (whenever
the range is non-empty) but never `max_k`.
-/
theorem cluster_candidate_range_spec (n cMin cMax : Nat) :
    minKOf n cMin = min cMin (max 2 (n / 20)) ∧
    maxKOf n cMin cMax = min cMax (max (minKOf n cMin + 2) (n / 5)) ∧
    (30 < maxKOf n cMin cMax →
      candidateList n cMin cMax =
        pyRange (minKOf n cMin) (maxKOf n cMin cMax)
          (max 1 ((maxKOf n cMin cMax - minKOf n cMin) / 10))) ∧
    (maxKOf n cMin cMax ≤ 30 →
      candidateList n cMin cMax =
        pyRange (minKOf n cMin) (maxKOf n cMin cMax) 1) ∧
    maxKOf n cMin cMax ∉ candidateList n cMin cMax ∧
    (minKOf n cMin < maxKOf n cMin cMax →
      minKOf n cMin ∈ candidateList n cMin cMax) := by
  refine ⟨rfl, rfl, ?_, ?_, ?_, ?_⟩
  · intro h
    rw [candidateList, if_pos h]
  · intro h
    rw [candidateList, if_neg (by omega)]
  · intro hmem
    rw [candidateList] at hmem
    split at hmem
    · exact absurd (mem_pyRange_upper (by positivity) hmem) (lt_irrefl _)
    · exact absurd (mem_pyRange_upper Nat.one_pos hmem) (lt_irrefl _)
  · intro h
    rw [candidateList]
    split
    · exact self_mem_pyRange (by positivity) h
    · exact self_mem_pyRange Nat.one_pos h

/--
C6 counterexample: with the default configuration `(3, 50)` and 250
chunks the bounds are `min_k = 3`, `max_k = 50`; the subsampling branch
is taken (`max_k > 30`, step 4) yet `max_k = 50` is not among the
candidates, contradicting the claim that subsampling preserves both
extremes.
-/
theorem cluster_range_counterexample :
    30 < maxKOf 250 3 50 ∧ maxKOf 250 3 50 ∉ candidateList 250 3 50 := by
  decide

/-- Witness for C6 at `n = 250` with the default configuration. -/
theorem cluster_candidate_range_witness :
    candidateList 250 3 50 = pyRange 3 50 4 ∧ 3 ∈ candidateList 250 3 50 :=
  ⟨(cluster_candidate_range_spec 250 3 50).2.2.1 (by decide),
    (cluster_candidate_range_spec 250 3 50).2.2.2.2.2 (by decide)⟩

/--
C7: with exactly 2 embedded chunks the selector returns 2 regardless of
a configured minimum greater than 2 (every candidate k satisfies k >= n
and is skipped, and `min_k = min(configured_min, 2) = 2`); in general,
whenever every candidate is skipped because `k >= n`, no silhouette
score exists and the selector falls back to `min_k`.
-/
theorem determine_clusters_two_chunks (score : Nat → Option ℚ)
    (cMin cMax n : Nat) :
    (2 < cMin → determineOptimalClusters score 2 cMin cMax = 2) ∧
    ((∀ k ∈ candidateList n cMin cMax, n ≤ k) →
      determineOptimalClusters score n cMin cMax = minKOf n cMin) := by
  constructor
  · intro hmin
    have hminK : minKOf 2 cMin = 2 := by
      show min cMin (max 2 (2 / 20)) = 2
      omega
    have hskip : ∀ k ∈ candidateList 2 cMin cMax, 2 ≤ k := by
      intro k hk
      calc 2 = minKOf 2 cMin := hminK.symm
        _ ≤ k := mem_candidateList_lower hk
    rw [determine_eq_minK_of_skip score 2 cMin cMax hskip, hminK]
  · exact determine_eq_minK_of_skip score n cMin cMax

/--
Witness for C7: two chunks, configured minimum 5, any oracle; the
selector returns 2.
-/
theorem determine_clusters_two_chunks_witness :
    determineOptimalClusters (fun _ => none) 2 5 50 = 2 :=
  (determine_clusters_two_chunks (fun _ => none) 5 50 2).1 (by decide)

/--
C5 (evaluating the code at the failing input): `perform_clustering`
guards only against zero embedded chunks; with exactly one embedded
chunk it does not raise the descriptive insufficient-data error but
proceeds — the selector falls back to k = 2, the capacity adjustment
keeps k = 2, and KMeans is invoked with 2 clusters on 1 sample, which
violates the sklearn precondition `k ≤ n` (so the run dies with a
generic sklearn error rather than the promised "insufficient data"
report).
-/
theorem perform_clustering_single_chunk (score : Nat → Option ℚ) :
    performClustering score
        [{ id := 0, text := [], embedding := some [1], cluster := none }]
        none =
      .ok (1, 2) ∧ ¬ (2 ≤ 1) := by
  refine ⟨?_, by omega⟩
  have hdet : determineOptimalClusters score 1 3 50 = 2 := by
    rw [determine_eq_minK_of_skip score 1 3 50 (by decide)]
    rfl
  rw [performClustering, if_neg (by decide)]
  show Except.ok (1, adjustedK 1 (requestedK score 1 none)) = _
  rw [requestedK, hdet]
  rfl

/--
C8: with n >= 2 embedded chunks and a requested cluster count k
exceeding n, `perform_clustering` reduces k to `max(2, n div 3)` (with a
logged warning) and invokes KMeans with that count, which satisfies the
sklearn precondition `2 <= k' <= n`, so the partition succeeds.
-/
theorem perform_clustering_capacity (score : Nat → Option ℚ)
    (data : List Record) (k : Int)
    (h2 : 2 ≤ (vectorsOf data).length)
    (hk : ((vectorsOf data).length : Int) < k) :
    performClustering score data (some k) =
      .ok ((vectorsOf data).length, max 2 ((vectorsOf data).length / 3)) ∧
    2 ≤ max 2 ((vectorsOf data).length / 3) ∧
    max 2 ((vectorsOf data).length / 3) ≤ (vectorsOf data).length := by
  have hne : (vectorsOf data).isEmpty = false := by
    cases hv : vectorsOf data with
    | nil => rw [hv] at h2; simp at h2
    | cons a l => rfl
  refine ⟨?_, le_max_left _ _, max_le h2 (Nat.div_le_self _ _)⟩
  rw [performClustering, if_neg (by rw [hne]; simp)]
  have hpos : ¬ (k ≤ 0) := by
    have : (0 : Int) ≤ (vectorsOf data).length := Int.natCast_nonneg _
    omega
  rw [requestedK, if_neg hpos, adjustedK, if_pos (Int.lt_toNat.mpr hk)]

/-- Concrete two-chunk input for the capacity-adjustment witness. -/
def twoRecords : List Record :=
  [{ id := 0, text := [], embedding := some [1], cluster := none },
   { id := 1, text := [], embedding := some [2], cluster := none }]

/--
Witness for C8: two embedded chunks, requested count 5; the clusterer
runs KMeans with the reduced count 2.
-/
theorem perform_clustering_capacity_witness :
    performClustering (fun _ => none) twoRecords (some 5) = .ok (2, 2) :=
  (perform_clustering_capacity (fun _ => none) twoRecords 5 (by decide)
    (by decide)).1

/-! ### Attaching labels to records (clustering.py, save_clustered_data) -/

/--
Translation of `save_clustered_data` (clustering.py lines 96-101): the
loop `for i, cluster in enumerate(clusters): embeddings_data[i]["cluster"]
= int(cluster)` writes the i-th computed label onto the i-th record of
the input list; records beyond the label list are left untouched.  (The
source would raise IndexError were the label list longer than the data;
in the pipeline the labels come from the subset of records with
embeddings, so they never are.)
-/
def saveClusteredData (data : List Record) (labels : List Nat) : List Record :=
  data.enum.map fun p =>
    match labels[p.1]? with
    | some c => { p.2 with cluster := some c }
    | none => p.2

/--
The number of embedded records strictly before position i: the position
within `vectors` (clustering.py line 70) of the vector extracted from
the record at position i.
-/
def embIdx (data : List Record) (i : Nat) : Nat :=
  ((data.take i).filter hasEmb).length

/-- The cluster field of the i-th record after `save_clustered_data`. -/
def assignedCluster (data : List Record) (labels : List Nat) (i : Nat) :
    Option Nat :=
  ((saveClusteredData data labels)[i]?).bind Record.cluster

/--
The label `perform_clustering` computed for the i-th record's own
vector: the label at that vector's position in the computed label list,
defined only when the record has a non-empty embedding.
-/
def ownLabel (data : List Record) (labels : List Nat) (i : Nat) : Option Nat :=
  match data[i]? with
  | some r => if hasEmb r then labels[embIdx data i]? else none
  | none => none

/-- Positional description of `save_clustered_data` on fresh records. -/
lemma assignedCluster_eq_getElem (data : List Record) (labels : List Nat)
    (hinit : ∀ r ∈ data, r.cluster = none) (i : Nat) (hi : i < data.length) :
    assignedCluster data labels i = labels[i]? := by
  rw [assignedCluster, saveClusteredData, List.getElem?_map,
    List.getElem?_enum, List.getElem?_eq_getElem hi]
  cases hl : labels[i]? with
  | some c => simp [hl]
  | none => simp [hl, hinit data[i] (List.getElem_mem hi)]

/--
C10: labels are attached purely by list position — `save_clustered_data`
writes the i-th computed label onto the i-th input record; every record
has a vector and receives exactly the label computed for that vector if
and only if all records carry a non-empty embedding; and when some
record lacks one, there are fewer labels than records, the trailing
records receive no cluster field, and each embedded record preceded by
an embedding-less record has the label of its own vector attached to a
strictly earlier position.
-/
theorem save_clustered_positional (data : List Record) (labels : List Nat)
    (hlen : labels.length = (data.filter hasEmb).length)
    (hinit : ∀ r ∈ data, r.cluster = none) :
    (∀ i, i < data.length → assignedCluster data labels i = labels[i]?) ∧
    ((∀ r ∈ data, hasEmb r) ↔
      (∀ i (h : i < data.length), hasEmb data[i] ∧
        assignedCluster data labels i = ownLabel data labels i ∧
        (ownLabel data labels i).isSome)) ∧
    ((∃ r ∈ data, ¬ hasEmb r) →
      labels.length < data.length ∧
      (∀ i, labels.length ≤ i → assignedCluster data labels i = none) ∧
      (∀ i (h : i < data.length), hasEmb data[i] →
        (∃ j, j < i ∧ ∃ h2 : j < data.length, ¬ hasEmb data[j]) →
        embIdx data i < i)) := by
  refine ⟨fun i hi => assignedCluster_eq_getElem data labels hinit i hi, ?_, ?_⟩
  · constructor
    · intro hall i h
      have hemb : hasEmb data[i] := hall _ (List.getElem_mem h)
      have hidx : embIdx data i = i := by
        rw [embIdx,
          List.filter_eq_self.mpr fun a ha => hall a (List.mem_of_mem_take ha),
          List.length_take]
        omega
      have hown : ownLabel data labels i = labels[i]? := by
        rw [ownLabel, List.getElem?_eq_getElem h]
        simp [hemb, hidx]
      refine ⟨hemb, ?_, ?_⟩
      · rw [assignedCluster_eq_getElem data labels hinit i h, hown]
      · have hfl : (data.filter hasEmb).length = data.length := by
          rw [List.filter_eq_self.mpr hall]
        rw [hown, List.getElem?_eq_getElem (by omega)]
        rfl
    · intro hP r hr
      obtain ⟨j, hj, rfl⟩ := List.mem_iff_getElem.mp hr
      exact (hP j hj).1
  · rintro ⟨r, hr, hremb⟩
    have hmlt : labels.length < data.length := by
      rw [hlen]
      exact List.length_filter_lt_length_iff_exists.mpr ⟨r, hr, by simpa using hremb⟩
    refine ⟨hmlt, ?_, ?_⟩
    · intro i hi
      rcases lt_or_ge i data.length with h | h
      · rw [assignedCluster_eq_getElem data labels hinit i h]
        exact List.getElem?_eq_none hi
      · rw [assignedCluster]
        have hlen2 : (saveClusteredData data labels).length ≤ i := by
          rw [saveClusteredData, List.length_map, List.enum_length]
          exact h
        rw [List.getElem?_eq_none hlen2]
        rfl
    · intro i h hemb hex
      obtain ⟨j, hji, hj2, hjnot⟩ := hex
      have hjmem : data[j] ∈ data.take i := by
        rw [List.mem_iff_getElem]
        refine ⟨j, by rw [List.length_take]; omega, ?_⟩
        rw [List.getElem_take]
      have hlt : ((data.take i).filter hasEmb).length < (data.take i).length :=
        List.length_filter_lt_length_iff_exists.mpr
          ⟨data[j], hjmem, by simpa using hjnot⟩
      rw [embIdx]
      calc ((data.take i).filter hasEmb).length < (data.take i).length := hlt
        _ ≤ i := by rw [List.length_take]; omega

/-- Concrete input for the C10 witness: an embedding-less record sits
between two embedded ones. -/
def threeRecords : List Record :=
  [{ id := 0, text := [], embedding := some [1], cluster := none },
   { id := 1, text := [], embedding := none, cluster := none },
   { id := 2, text := [], embedding := some [2], cluster := none }]

/--
Witness for C10: with records (embedded, missing, embedded) and the two
computed labels 5 and 9, position 0 receives label 5 and position 2 —
an embedded record — receives no cluster field at all: the labels have
shifted onto earlier records.
-/
theorem save_clustered_positional_witness :
    assignedCluster threeRecords [5, 9] 0 = some 5 ∧
    assignedCluster threeRecords [5, 9] 2 = none :=
  ⟨(save_clustered_positional threeRecords [5, 9] (by decide) (by decide)).1
      0 (by decide),
    ((save_clustered_positional threeRecords [5, 9] (by decide)
          (by decide)).2.2
        ⟨{ id := 1, text := [], embedding := none, cluster := none },
          by decide, by decide⟩).2.1 2 (by decide)⟩

/-! ### Aggregator (backend/generate_json.py) -/

/-- One entry of the final artifact's "clusters" list. -/
structure ClusterOut where
  id : Nat
  name : String
  items : List Record
deriving DecidableEq

/-- The final configuration object written to docexplore.json. -/
structure Artifact where
  title : String
  description : String
  similarity : ℚ
  charsPerPixel : Nat
  clusters : List ClusterOut
deriving DecidableEq

/--
One step of the grouping loop in `generate_docexplore_json`
(generate_json.py lines 20-25): append the item to the bucket of its
cluster id, creating the bucket at the end on first encounter (Python
dict preserves insertion order).
-/
def addToGroups (acc : List (Nat × List Record)) (cid : Nat) (r : Record) :
    List (Nat × List Record) :=
  if acc.any (fun q => q.1 == cid) then
    acc.map fun p => if p.1 = cid then (p.1, p.2 ++ [r]) else p
  else acc ++ [(cid, [r])]

/--
The grouping loop of `generate_docexplore_json` (generate_json.py lines
20-25); `item["cluster"]` raises KeyError when the key is absent, which
aborts the function, hence the `Except`.
-/
def groupByCluster : List Record → List (Nat × List Record) →
    Except String (List (Nat × List Record))
  | [], acc => .ok acc
  | r :: rest, acc =>
      match r.cluster with
      | none => .error "KeyError: cluster"
      | some cid => groupByCluster rest (addToGroups acc cid r)

/--
Name lookup `cluster_names.get(str(cid), f"Cluster {cid}")`
(generate_json.py line 30).
-/
def lookupName (names : List (Nat × String)) (cid : Nat) : String :=
  match names.lookup cid with
  | some nm => nm
  | none => "Cluster " ++ toString cid

/--
One cluster entry of the artifact (generate_json.py lines 29-35): id,
looked-up name, and the full items of the bucket.
-/
def toClusterOut (names : List (Nat × String)) (g : Nat × List Record) :
    ClusterOut :=
  { id := g.1, name := lookupName names g.1, items := g.2 }

/--
Translation of `generate_docexplore_json` (generate_json.py lines 5-48):
group the clustered records by cluster id, attach names, and write the
configuration object.  Note that an empty `clustered_data` only triggers
a printed warning (line 14) — the function still assembles and writes
the artifact.
-/
def generateDocexploreJson (title desc : String) (simThr : ℚ) (cpp : Nat)
    (data : List Record) (names : List (Nat × String)) :
    Except String Artifact :=
  match groupByCluster data [] with
  | .error e => .error e
  | .ok groups =>
      .ok { title := title, description := desc, similarity := simThr,
            charsPerPixel := cpp, clusters := groups.map (toClusterOut names) }

/-! Invariants of the grouping loop. -/

lemma map_update_eq_self {cid : Nat} {r : Record} :
    ∀ {acc : List (Nat × List Record)}, cid ∉ acc.map Prod.fst →
      (acc.map fun p => if p.1 = cid then (p.1, p.2 ++ [r]) else p) = acc := by
  intro acc h
  induction acc with
  | nil => rfl
  | cons p acc ih =>
      simp only [List.map_cons, List.mem_cons, not_or] at h
      obtain ⟨h1, h2⟩ := h
      rw [List.map_cons, if_neg fun he => h1 he.symm, ih h2]

lemma update_flatten_perm (cid : Nat) (r : Record) :
    ∀ (acc : List (Nat × List Record)), (acc.map Prod.fst).Nodup →
      acc.any (fun q => q.1 == cid) = true →
      ((acc.map fun p => if p.1 = cid then (p.1, p.2 ++ [r]) else p).map
          Prod.snd).flatten.Perm ((acc.map Prod.snd).flatten ++ [r])
  | [], _, hany => by simp at hany
  | p :: acc, hnd, hany => by
      rw [List.map_cons] at hnd
      obtain ⟨hp, hnd2⟩ := List.nodup_cons.mp hnd
      by_cases hpc : p.1 = cid
      · rw [List.map_cons, if_pos hpc, map_update_eq_self (hpc ▸ hp)]
        show ((p.2 ++ [r]) :: (acc.map Prod.snd)).flatten.Perm _
        rw [List.flatten_cons, List.map_cons, List.flatten_cons,
          List.append_assoc, List.append_assoc]
        exact List.Perm.append_left p.2 List.perm_append_comm
      · have hany2 : acc.any (fun q => q.1 == cid) = true := by
          rw [List.any_cons, Bool.or_eq_true] at hany
          rcases hany with h | h
          · exact absurd (by simpa using h) hpc
          · exact h
        have ih := update_flatten_perm cid r acc hnd2 hany2
        rw [List.map_cons, if_neg hpc]
        show (p.2 :: ((acc.map fun p => if p.1 = cid then (p.1, p.2 ++ [r])
          else p).map Prod.snd)).flatten.Perm _
        rw [List.flatten_cons, List.map_cons, List.flatten_cons,
          List.append_assoc]
        exact List.Perm.append_left p.2 ih

lemma addToGroups_keys_nodup {acc : List (Nat × List Record)} {cid : Nat}
    {r : Record} (h : (acc.map Prod.fst).Nodup) :
    ((addToGroups acc cid r).map Prod.fst).Nodup := by
  rw [addToGroups]
  by_cases hany : acc.any (fun q => q.1 == cid) = true
  · rw [if_pos hany, List.map_map]
    have : (Prod.fst ∘ fun p : Nat × List Record =>
        if p.1 = cid then (p.1, p.2 ++ [r]) else p) = Prod.fst := by
      funext p
      show (if p.1 = cid then (p.1, p.2 ++ [r]) else p).1 = p.1
      split <;> rfl
    rw [this]
    exact h
  · rw [if_neg hany, List.map_append]
    have hnot : cid ∉ acc.map Prod.fst := by
      intro hm
      obtain ⟨p, hp, hpe⟩ := List.mem_map.mp hm
      apply hany
      rw [List.any_eq_true]
      exact ⟨p, hp, by simp [hpe]⟩
    refine h.append (List.nodup_singleton cid) ?_
    intro a ha hb
    rw [List.mem_singleton.mp hb] at ha
    exact hnot ha

lemma addToGroups_mem_prop {acc : List (Nat × List Record)} {cid : Nat}
    {r : Record} (h : ∀ g ∈ acc, ∀ it ∈ g.2, it.cluster = some g.1)
    (hr : r.cluster = some cid) :
    ∀ g ∈ addToGroups acc cid r, ∀ it ∈ g.2, it.cluster = some g.1 := by
  intro g hg it hit
  rw [addToGroups] at hg
  split at hg
  · obtain ⟨p, hp, rfl⟩ := List.mem_map.mp hg
    by_cases hpc : p.1 = cid
    · rw [if_pos hpc] at hit ⊢
      rcases List.mem_append.mp hit with h1 | h1
      · exact h p hp it h1
      · rw [List.mem_singleton.mp h1, hr, hpc]
    · rw [if_neg hpc] at hit ⊢
      exact h p hp it hit
  · rcases List.mem_append.mp hg with h1 | h1
    · exact h g h1 it hit
    · rw [List.mem_singleton.mp h1] at hit ⊢
      rw [List.mem_singleton.mp hit]
      exact hr

lemma addToGroups_flatten_perm (acc : List (Nat × List Record)) (cid : Nat)
    (r : Record) (hnd : (acc.map Prod.fst).Nodup) :
    ((addToGroups acc cid r).map Prod.snd).flatten.Perm
      ((acc.map Prod.snd).flatten ++ [r]) := by
  rw [addToGroups]
  by_cases hany : acc.any (fun q => q.1 == cid) = true
  · rw [if_pos hany]
    exact update_flatten_perm cid r acc hnd hany
  · rw [if_neg hany, List.map_append, List.flatten_append]
    simp

lemma groupByCluster_ok_spec :
    ∀ (l : List Record) (acc out : List (Nat × List Record)),
      (acc.map Prod.fst).Nodup →
      (∀ g ∈ acc, ∀ it ∈ g.2, it.cluster = some g.1) →
      groupByCluster l acc = .ok out →
      (out.map Prod.fst).Nodup ∧
      (∀ g ∈ out, ∀ it ∈ g.2, it.cluster = some g.1) ∧
      (out.map Prod.snd).flatten.Perm ((acc.map Prod.snd).flatten ++ l)
  | [], acc, out, h1, h2, hok => by
      rw [groupByCluster] at hok
      obtain rfl : acc = out := Except.ok.inj hok
      exact ⟨h1, h2, by simp⟩
  | r :: rest, acc, out, h1, h2, hok => by
      rw [groupByCluster] at hok
      cases hc : r.cluster with
      | none => rw [hc] at hok; exact absurd hok (by simp)
      | some cid =>
          rw [hc] at hok
          obtain ⟨o1, o2, o3⟩ := groupByCluster_ok_spec rest
            (addToGroups acc cid r) out (addToGroups_keys_nodup h1)
            (addToGroups_mem_prop h2 hc) hok
          refine ⟨o1, o2, ?_⟩
          refine o3.trans ?_
          have h4 := (addToGroups_flatten_perm acc cid r h1).append_right rest
          simpa using h4

/--
C2: whenever a clustering run is assembled into the final artifact,
the clusters form a partition of the input records — cluster ids are
pairwise distinct, every item sits in the items list of exactly the
cluster carrying its own cluster id, and the concatenation of all
clusters' item lists is a permutation of the full input record list.
-/
theorem generate_json_partition (title desc : String) (simThr : ℚ) (cpp : Nat)
    (data : List Record) (names : List (Nat × String)) (art : Artifact)
    (h : generateDocexploreJson title desc simThr cpp data names = .ok art) :
    (art.clusters.map ClusterOut.id).Nodup ∧
    (∀ cl ∈ art.clusters, ∀ it ∈ cl.items, it.cluster = some cl.id) ∧
    (art.clusters.map ClusterOut.items).flatten.Perm data := by
  rw [generateDocexploreJson] at h
  cases hg : groupByCluster data [] with
  | error e => rw [hg] at h; exact absurd h (by simp)
  | ok groups =>
      rw [hg] at h
      obtain ⟨o1, o2, o3⟩ := groupByCluster_ok_spec data [] groups (by simp)
        (by simp) hg
      have hart : art.clusters = groups.map (toClusterOut names) := by
        have h2 := Except.ok.inj h
        rw [← h2]
      refine ⟨?_, ?_, ?_⟩
      · rw [hart, List.map_map]
        have hco : (ClusterOut.id ∘ toClusterOut names) = Prod.fst := by
          funext g
          rfl
        rw [hco]
        exact o1
      · intro cl hcl it hit
        rw [hart] at hcl
        obtain ⟨g, hg2, rfl⟩ := List.mem_map.mp hcl
        exact o2 g hg2 it hit
      · rw [hart, List.map_map]
        have hco : (ClusterOut.items ∘ toClusterOut names) = Prod.snd := by
          funext g
          rfl
        rw [hco]
        simpa using o3

/-- Concrete clustered input for the C2 witness. -/
def clusteredRecords : List Record :=
  [{ id := 0, text := [], embedding := some [1], cluster := some 0 },
   { id := 1, text := [], embedding := some [2], cluster := some 1 },
   { id := 2, text := [], embedding := some [3], cluster := some 0 }]

/-- The artifact assembled from `clusteredRecords` with no names file. -/
def clusteredArtifact : Artifact :=
  { title := "t", description := "d", similarity := 0, charsPerPixel := 20,
    clusters :=
      [{ id := 0, name := "Cluster 0",
         items := [{ id := 0, text := [], embedding := some [1],
                     cluster := some 0 },
                   { id := 2, text := [], embedding := some [3],
                     cluster := some 0 }] },
       { id := 1, name := "Cluster 1",
         items := [{ id := 1, text := [], embedding := some [2],
                     cluster := some 1 }] }] }

/--
Witness for C2: on a three-record run with clusters 0, 1, 0 the
assembled artifact's item lists concatenate to a permutation of the
input.
-/
theorem generate_json_partition_witness :
    (clusteredArtifact.clusters.map ClusterOut.items).flatten.Perm
      clusteredRecords :=
  (generate_json_partition "t" "d" 0 20 clusteredRecords []
    clusteredArtifact rfl).2.2

/--
C4 (evaluating the code at the failing input): on an empty member-chunk
input `generate_docexplore_json` does not signal an error — it returns
successfully and writes an artifact whose clusters list is empty (the
source merely prints a warning), handing the empty artifact to the
presentation layer.
-/
theorem generate_json_empty_input (title desc : String) (simThr : ℚ)
    (cpp : Nat) (names : List (Nat × String)) :
    generateDocexploreJson title desc simThr cpp [] names =
      .ok { title := title, description := desc, similarity := simThr,
            charsPerPixel := cpp, clusters := [] } := rfl

/-! ### Topic namer (backend/topic_naming.py)

Member texts are modelled at token granularity: each sample is the list
of word tokens CountVectorizer's tokenizer produces from it (lower-cased
words of at least two word characters).  The sklearn English stop-word
list is abstracted as a predicate `stop`; concrete instantiations below
only use words that belong to that frozen list.  MAX_KEYWORDS comes from
config.py, which is configuration outside the pipeline sources, so it
stays a parameter.
-/

/--
Python `str.capitalize` (topic_naming.py line 61): first character
upper-cased, the rest lower-cased.
-/
def capitalizePy (s : String) : String :=
  match s.data with
  | [] => ""
  | c :: rest => String.mk (c.toUpper :: rest.map Char.toLower)

/--
The word count of a phrase, Python `len(p.split())` (topic_naming.py
lines 43-44); phrases are space-joined token sequences.
-/
def wordCount (p : String) : Nat := (p.splitOn " ").length

/--
The 1- to 3-gram phrases CountVectorizer forms from one token sequence
(`ngram_range=(1, 3)`, topic_naming.py line 24): every contiguous run of
one to three tokens, joined by single spaces.
-/
def ngramsOf (doc : List String) : List String :=
  (List.range doc.length).flatMap fun i =>
    (List.range 3).filterMap fun nsub =>
      if i + (nsub + 1) ≤ doc.length then
        some (String.intercalate " " ((doc.drop i).take (nsub + 1)))
      else none

/--
All n-gram occurrences across the corpus, with stop words removed from
each sample before n-grams are formed (CountVectorizer with
`stop_words='english'`).
-/
def corpusNgrams (stop : String → Bool) (samples : List (List String)) :
    List String :=
  samples.flatMap fun s => ngramsOf (s.filter fun w => !stop w)

/-- Occurrence count of a phrase in the corpus n-gram list. -/
def countOcc (l : List String) (x : String) : Nat :=
  (l.filter fun y => y == x).length

/-- Insertion step of a deterministic insertion sort. -/
def insertBy {α : Type} (le : α → α → Bool) (x : α) : List α → List α
  | [] => [x]
  | y :: ys => if le x y then x :: y :: ys else y :: insertBy le x ys

/-- Deterministic insertion sort, modelling numpy argsort orderings. -/
def sortBy {α : Type} (le : α → α → Bool) (l : List α) : List α :=
  l.foldr (insertBy le) []

/--
The CountVectorizer vocabulary (topic_naming.py lines 21-29): the
distinct corpus n-grams, capped to `max_features=100` by corpus
frequency (ties resolved alphabetically, modelling sklearn's sorted
vocabulary order).
-/
def vocabOf (stop : String → Bool) (samples : List (List String)) :
    List String :=
  (sortBy
      (fun a b =>
        if countOcc (corpusNgrams stop samples) a =
            countOcc (corpusNgrams stop samples) b
        then decide (a ≤ b)
        else decide (countOcc (corpusNgrams stop samples) b <
          countOcc (corpusNgrams stop samples) a))
      (corpusNgrams stop samples).eraseDups).take 100

/--
The ranked phrase extraction of `name_cluster` (topic_naming.py lines
21-39): `none` models the ValueError CountVectorizer raises on an empty
vocabulary (the case where every token is a stop word); otherwise the
vocabulary sorted by descending corpus frequency, truncated to
`MAX_KEYWORDS*2` top phrases.
-/
def extractTopPhrases (stop : String → Bool) (maxKeywords : Nat)
    (samples : List (List String)) : Option (List String) :=
  if (vocabOf stop samples).isEmpty then none
  else
    some ((sortBy
        (fun a b => decide (countOcc (corpusNgrams stop samples) b ≤
          countOcc (corpusNgrams stop samples) a))
        (vocabOf stop samples)).take (maxKeywords * 2))

/--
The phrase selection of `name_cluster` (topic_naming.py lines 43-54):
split the top phrases into multi-word and single-word ones, prefer up to
MAX_KEYWORDS multi-word phrases, and fill the remaining slots from
single words.
-/
def selectedPhrases (maxKeywords : Nat) (topPhrases : List String) :
    List String :=
  let multi := topPhrases.filter fun p => decide (1 < wordCount p)
  let single := topPhrases.filter fun p => decide (wordCount p = 1)
  let sel1 :=
    if multi.isEmpty then []
    else multi.take (min maxKeywords multi.length)
  if sel1.length < maxKeywords then
    sel1 ++ single.take (maxKeywords - sel1.length)
  else sel1

/--
Translation of `name_cluster` (topic_naming.py lines 9-74): empty input
and empty phrase selection fall back to "Topic {id}"; the surrounding
try/except turns any internal error — modelled by the `none` result of
the extraction — into the "Cluster {id}" label (line 74), as does an
empty title (line 71).
-/
def nameCluster (stop : String → Bool) (maxKeywords : Nat)
    (samples : List (List String)) (cid : Nat) : String :=
  if samples.length = 0 then "Topic " ++ toString cid
  else
    match extractTopPhrases stop maxKeywords samples with
    | none => "Cluster " ++ toString cid
    | some topPhrases =>
        if (selectedPhrases maxKeywords topPhrases).isEmpty then
          "Topic " ++ toString cid
        else
          match ((selectedPhrases maxKeywords topPhrases).take
              maxKeywords).map capitalizePy with
          | [] => "Topic " ++ toString cid
          | [p] => if p = "" then "Cluster " ++ toString cid else p
          | p :: rest =>
              if p ++ " & " ++ String.intercalate " " rest = "" then
                "Cluster " ++ toString cid
              else p ++ " & " ++ String.intercalate " " rest

/-- When every token of every sample is a stop word, the vocabulary is
empty. -/
lemma vocabOf_eq_nil {stop : String → Bool} {samples : List (List String)}
    (h : ∀ s ∈ samples, ∀ w ∈ s, stop w = true) :
    vocabOf stop samples = [] := by
  have hc : corpusNgrams stop samples = [] := by
    rw [corpusNgrams, List.flatMap_eq_nil_iff]
    intro s hs
    have hf : (s.filter fun w => !stop w) = [] := by
      rw [List.filter_eq_nil_iff]
      intro w hw
      rw [h s hs w hw]
      simp
    rw [hf]
    rfl
  rw [vocabOf, hc]
  rfl

/--
C3 (amended): `name_cluster` is total and never propagates an exception;
an empty member list — and an empty phrase selection after a successful
extraction (topic_naming.py lines 57-58) — yield the generic
"Topic {cluster_id}" label, but any internal error degrades to
"Cluster {cluster_id}" instead: in particular a cluster whose member
texts consist entirely of stop words makes the vectorizer raise an
empty-vocabulary error, which the handler turns into "Cluster {id}",
not "Topic {id}".
-/
theorem name_cluster_fallback (stop : String → Bool) (maxKeywords : Nat)
    (samples : List (List String)) (cid : Nat) :
    (samples = [] →
      nameCluster stop maxKeywords samples cid = "Topic " ++ toString cid) ∧
    (samples ≠ [] → ∀ topPhrases,
      extractTopPhrases stop maxKeywords samples = some topPhrases →
      selectedPhrases maxKeywords topPhrases = [] →
      nameCluster stop maxKeywords samples cid = "Topic " ++ toString cid) ∧
    (samples ≠ [] → (∀ s ∈ samples, ∀ w ∈ s, stop w = true) →
      nameCluster stop maxKeywords samples cid =
        "Cluster " ++ toString cid) := by
  refine ⟨?_, ?_, ?_⟩
  · intro h
    subst h
    rfl
  · intro hne topPhrases hext hsel
    rw [nameCluster, if_neg fun h0 => hne (List.length_eq_zero.mp h0), hext]
    simp [hsel]
  · intro hne hstop
    have hex : extractTopPhrases stop maxKeywords samples = none := by
      rw [extractTopPhrases, vocabOf_eq_nil hstop]
      rfl
    rw [nameCluster, if_neg fun h0 => hne (List.length_eq_zero.mp h0), hex]

/--
C3 counterexample: a cluster whose member text consists only of the
English stop words "the" and "of" is named "Cluster 7", not the
"Topic 7" the claim promises.
-/
theorem name_cluster_stopwords_counterexample :
    nameCluster (fun w => w == "the" || w == "of") 5 [["the", "of", "the"]] 7 =
      "Cluster 7" ∧ "Cluster 7" ≠ "Topic 7" := by
  constructor
  · decide
  · decide

/-- Witness for C3: the empty cluster, a cluster whose phrase selection
comes out empty (MAX_KEYWORDS = 0 keeps no phrase), and the
all-stop-words cluster. -/
theorem name_cluster_fallback_witness :
    nameCluster (fun w => w == "the" || w == "of") 5 [] 3 = "Topic 3" ∧
    nameCluster (fun w => w == "the" || w == "of") 0 [["alpha"]] 3 =
      "Topic 3" ∧
    nameCluster (fun w => w == "the" || w == "of") 5 [["the"]] 3 =
      "Cluster 3" :=
  ⟨(name_cluster_fallback (fun w => w == "the" || w == "of") 5 [] 3).1 rfl,
    (name_cluster_fallback (fun w => w == "the" || w == "of") 0
      [["alpha"]] 3).2.1 (by decide) [] (by decide) rfl,
    (name_cluster_fallback (fun w => w == "the" || w == "of") 5
      [["the"]] 3).2.2 (by decide) (by decide)⟩

/-! ### Topic overlap (app.py, compute_topic_overlap)

Chunk texts are again modelled at token granularity: `Record.text` holds
the whitespace-separated tokens of the chunk, and the `.lower()` the
source applies to the whole text before splitting is modelled by
lower-casing each token.
-/

/--
The distinct significant words of a list of texts (app.py line 92):
lower-cased tokens longer than 3 characters consisting solely of
alphabetic characters, collected into a set.
-/
def sigWords (texts : List (List String)) : Finset String :=
  ((texts.flatten.map fun w => String.mk (w.data.map Char.toLower)).filter
    fun w => decide (3 < w.length) && w.data.all Char.isAlpha).toFinset

/--
The texts collected for one topic id (app.py lines 82-87): items whose
cluster id equals it, provided that id is a key of `topics_dict`.
-/
def topicTexts (data : List Record) (dict : List (Nat × String)) (cid : Nat) :
    List (List String) :=
  (data.filter fun it =>
      match it.cluster with
      | some c => c == cid && dict.any fun p => p.1 == c
      | none => false).map Record.text

/-- The significant-word set of one topic (app.py lines 89-93), with
`topic_words.get(cid, set())` yielding the empty set for an id without
texts. -/
def topicWords (data : List Record) (dict : List (Nat × String)) (cid : Nat) :
    Finset String :=
  sigWords (topicTexts data dict cid)

/--
The Jaccard ratio `common / total` of app.py lines 103-105, with 0 when
the union is empty.
-/
def jaccardQ (A B : Finset String) : ℚ :=
  if (A ∪ B).card = 0 then 0
  else ((A ∩ B).card : ℚ) / ((A ∪ B).card : ℚ)

/-- Python `round(x, 2)` on the reported score (app.py line 107). -/
def round2 (q : ℚ) : ℚ := (round (100 * q) : ℤ) / 100

/-- The topic at index i of the `topics_dict` item list. -/
def topicAt (dict : List (Nat × String)) (i : Nat) : Nat × String :=
  dict.getD i (0, "")

/-- The overlap score of the topics at indices i and j. -/
def overlapScore (data : List Record) (dict : List (Nat × String))
    (i j : Nat) : ℚ :=
  jaccardQ (topicWords data dict (topicAt dict i).1)
    (topicWords data dict (topicAt dict j).1)

/--
The loop body of `compute_topic_overlap` (app.py lines 99-107): the
entry reported for the index pair (i, j), present exactly when the score
exceeds 0.1, carrying the two topic names and the score rounded to two
decimals.
-/
def overlapEntry (data : List Record) (dict : List (Nat × String))
    (i j : Nat) : Option (String × String × ℚ) :=
  if 1 / 10 < overlapScore data dict i j then
    some ((topicAt dict i).2, (topicAt dict j).2,
      round2 (overlapScore data dict i j))
  else none

/--
Translation of `compute_topic_overlap` (app.py lines 80-108): the double
loop over index pairs i < j of the topic list.
-/
def computeTopicOverlap (data : List Record) (dict : List (Nat × String)) :
    List (String × String × ℚ) :=
  (List.range dict.length).flatMap fun i =>
    (List.range' (i + 1) (dict.length - (i + 1))).filterMap fun j =>
      overlapEntry data dict i j

lemma jaccardQ_comm (A B : Finset String) : jaccardQ A B = jaccardQ B A := by
  rw [jaccardQ, jaccardQ, Finset.union_comm, Finset.inter_comm]

lemma jaccardQ_nonneg (A B : Finset String) : 0 ≤ jaccardQ A B := by
  rw [jaccardQ]
  split
  · exact le_rfl
  · positivity

lemma jaccardQ_le_one (A B : Finset String) : jaccardQ A B ≤ 1 := by
  rw [jaccardQ]
  split
  · exact zero_le_one
  · rename_i hc
    have hpos : (0 : ℚ) < ((A ∪ B).card : ℚ) := by
      exact_mod_cast Nat.pos_of_ne_zero hc
    rw [div_le_one hpos]
    exact_mod_cast Finset.card_le_card Finset.inter_subset_union

/-- Unpacking membership in the reported overlap list. -/
lemma mem_computeTopicOverlap {data : List Record}
    {dict : List (Nat × String)} {x y : String} {r : ℚ}
    (h : (x, y, r) ∈ computeTopicOverlap data dict) :
    ∃ i j, i < dict.length ∧ i < j ∧ j < dict.length ∧
      x = (topicAt dict i).2 ∧ y = (topicAt dict j).2 ∧
      1 / 10 < overlapScore data dict i j ∧
      r = round2 (overlapScore data dict i j) := by
  rw [computeTopicOverlap, List.mem_flatMap] at h
  obtain ⟨i, hi, h⟩ := h
  rw [List.mem_range] at hi
  rw [List.mem_filterMap] at h
  obtain ⟨j, hj, hentry⟩ := h
  rw [List.mem_range'] at hj
  obtain ⟨k, hk, rfl⟩ := hj
  rw [overlapEntry] at hentry
  split at hentry
  · rename_i hlt
    rw [Option.some.injEq, Prod.mk.injEq, Prod.mk.injEq] at hentry
    exact ⟨i, i + 1 + 1 * k, hi, by omega, by omega, hentry.1.symm,
      hentry.2.1.symm, hlt, hentry.2.2.symm⟩
  · exact absurd hentry (by simp)

/-- The entry for a qualifying pair is produced by its own iteration. -/
lemma overlap_entry_mem {data : List Record} {dict : List (Nat × String)}
    {i j : Nat} (hi : i < dict.length) (hj : j < dict.length) (hij : i < j)
    (hover : 1 / 10 < overlapScore data dict i j) :
    ((topicAt dict i).2, (topicAt dict j).2,
      round2 (overlapScore data dict i j)) ∈ computeTopicOverlap data dict := by
  rw [computeTopicOverlap, List.mem_flatMap]
  refine ⟨i, List.mem_range.mpr hi, ?_⟩
  rw [List.mem_filterMap]
  refine ⟨j, ?_, ?_⟩
  · rw [List.mem_range']
    exact ⟨j - (i + 1), by omega, by omega⟩
  · rw [overlapEntry, if_pos hover]

/-- With pairwise distinct topic names, a name determines its index. -/
lemma topicAt_snd_inj {dict : List (Nat × String)}
    (hnd : (dict.map Prod.snd).Nodup) {i j : Nat} (hi : i < dict.length)
    (hj : j < dict.length)
    (h : (topicAt dict i).2 = (topicAt dict j).2) : i = j := by
  have hi2 : i < (dict.map Prod.snd).length := by
    rw [List.length_map]
    exact hi
  have hj2 : j < (dict.map Prod.snd).length := by
    rw [List.length_map]
    exact hj
  rw [topicAt, topicAt, List.getD_eq_getElem _ _ hi,
    List.getD_eq_getElem _ _ hj] at h
  have hget : (dict.map Prod.snd).get ⟨i, hi2⟩ = (dict.map Prod.snd).get ⟨j, hj2⟩ := by
    rw [List.get_eq_getElem, List.get_eq_getElem, List.getElem_map,
      List.getElem_map]
    exact h
  have := (List.Nodup.get_inj_iff hnd).mp hget
  exact congrArg Fin.val this

/--
C9: the overlap score of every unordered topic pair is the Jaccard
ratio of the topics' significant-word sets — symmetric and within
[0, 1]; the pair is reported (with the score rounded to two decimals)
exactly when the ratio exceeds 0.1; and a pair with disjoint
significant vocabularies scores 0 and is never reported.
-/
theorem compute_topic_overlap_spec (data : List Record)
    (dict : List (Nat × String)) (hnd : (dict.map Prod.snd).Nodup)
    (i j : Nat) (hi : i < dict.length) (hj : j < dict.length) (hij : i < j) :
    overlapScore data dict i j = overlapScore data dict j i ∧
    0 ≤ overlapScore data dict i j ∧
    overlapScore data dict i j ≤ 1 ∧
    (((topicAt dict i).2, (topicAt dict j).2,
        round2 (overlapScore data dict i j)) ∈
        computeTopicOverlap data dict ↔
      1 / 10 < overlapScore data dict i j) ∧
    (topicWords data dict (topicAt dict i).1 ∩
        topicWords data dict (topicAt dict j).1 = ∅ →
      overlapScore data dict i j = 0 ∧
      ∀ r : ℚ, ((topicAt dict i).2, (topicAt dict j).2, r) ∉
        computeTopicOverlap data dict) := by
  refine ⟨jaccardQ_comm _ _, jaccardQ_nonneg _ _, jaccardQ_le_one _ _, ?_, ?_⟩
  · constructor
    · intro hmem
      obtain ⟨i2, j2, hi2, hij2, hj2, hx, hy, hover, hr⟩ :=
        mem_computeTopicOverlap hmem
      obtain rfl : i2 = i := topicAt_snd_inj hnd hi2 hi hx.symm
      obtain rfl : j2 = j := topicAt_snd_inj hnd hj2 hj hy.symm
      exact hover
    · intro hover
      exact overlap_entry_mem hi hj hij hover
  · intro hdisj
    have hzero : overlapScore data dict i j = 0 := by
      rw [overlapScore, jaccardQ]
      split
      · rfl
      · rw [hdisj]
        simp
    refine ⟨hzero, ?_⟩
    intro r hmem
    obtain ⟨i2, j2, hi2, hij2, hj2, hx, hy, hover, hr⟩ :=
      mem_computeTopicOverlap hmem
    obtain rfl : i2 = i := topicAt_snd_inj hnd hi2 hi hx.symm
    obtain rfl : j2 = j := topicAt_snd_inj hnd hj2 hj hy.symm
    rw [hzero] at hover
    norm_num at hover

/-- Concrete two-topic input for the C9 witness: the spec's "revenue"
scenario — three significant words each, sharing exactly "revenue". -/
def overlapRecords : List Record :=
  [{ id := 0, text := ["alpha", "bravo", "revenue"], embedding := none,
     cluster := some 0 },
   { id := 1, text := ["delta", "gamma", "revenue"], embedding := none,
     cluster := some 1 }]

/-- The two named topics of the C9 witness. -/
def overlapTopics : List (Nat × String) := [(0, "A"), (1, "B")]

/--
Witness for C9: the two topics share one of five distinct significant
words, so the score 1/5 = 0.2 exceeds the 0.1 threshold and the pair is
reported.
-/
theorem compute_topic_overlap_spec_witness :
    ("A", "B", round2 (overlapScore overlapRecords overlapTopics 0 1)) ∈
      computeTopicOverlap overlapRecords overlapTopics := by
  have hs : overlapScore overlapRecords overlapTopics 0 1 = 1 / 5 := by
    show jaccardQ (topicWords overlapRecords overlapTopics 0)
      (topicWords overlapRecords overlapTopics 1) = 1 / 5
    rw [jaccardQ]
    have hinter : (topicWords overlapRecords overlapTopics 0 ∩
        topicWords overlapRecords overlapTopics 1).card = 1 := by decide
    have hunion : (topicWords overlapRecords overlapTopics 0 ∪
        topicWords overlapRecords overlapTopics 1).card = 5 := by decide
    rw [hinter, hunion]
    norm_num
  exact (compute_topic_overlap_spec overlapRecords overlapTopics (by decide)
    0 1 (by decide) (by decide) (by decide)).2.2.2.1.mpr (by rw [hs]; norm_num)

end DocExplore
